import Mathlib

/-!
# hakuv2test: a verification development

A shallow embedding of `hakuv2test.go` (a word-level sequence-to-sequence chat bot)
and theorems about its model pipeline, sampler, training loop and vocabulary and
corpus loaders.

Conventions of the embedding:

* a `*mat32.Matrix` is the list of its entries; a finite `float32` is an exact rational,
  so the entries are of type `ℚ` (NaN and the infinities are not represented);
* the layers of the external `spago` library are fields of `Model`, arbitrary functions;
* the calls of `Train` into the external criterion, optimizer and regime are the fields of
  `Library`, arbitrary functions on an arbitrary state that may panic;
* a Go panic is an `Except.error`;
* the process-wide random generator is the stream `rnd` of raw values it yields,
  `rnd k` being consumed by the `k`-th call of `rand.Intn` made by `Sample`;
* a Go `map` is an association list with pairwise distinct keys, the order of the list
  being the order in which `range` visits the entries.
-/

namespace Hakuv2

/-! ## Data model -/

/-- The entries of a `*mat32.Matrix` (a row vector), exact rationals. -/
abbrev Vec := List ℚ

/-- The ways the embedded code can panic. -/
inductive Panic where
  /-- Go: index out of range on a slice (`probs[nextIndex]`, `xss[0]`, `lines[0]`). -/
  | indexOutOfRange
  /-- Go: slice bounds out of range (`labels[1:]` on an empty slice). -/
  | sliceBoundsOutOfRange
  /-- The call `rand.Intn(n)` with `n <= 0`. -/
  | intnNonPositive
  /-- The call `SetVec(i, v)` of mat32 with `i` not below the size of the vector. -/
  | setVecOutOfRange
  /-- The call `log.Fatal(err)`. -/
  | fatal
  deriving DecidableEq, Repr

/-- The Go conversion `int(p)` of a float: truncation toward zero (for a value that fits
in an `int`, which every entry of a softmax output does). -/
def goInt (p : ℚ) : Int := Int.tdiv p.num p.den

/-- The call `mat32.NewVector(n, nil)` (and `mat32.NewMatrix(1, n, nil)`): `n` zero entries. -/
def NewVector (n : Nat) : Vec := List.replicate n 0

/-- The method `SetVec(i, v)` of a mat32 vector: panics unless `i` is below the size. -/
def SetVec (d : Vec) (i : Nat) (v : ℚ) : Except Panic Vec :=
  if i < d.length then .ok (d.set i v) else .error .setVecOutOfRange

/-- The call `rand.Intn(n)`, the `call`-th one: a value of `[0, n)`, a panic when `n <= 0`. -/
def Intn (rnd : Nat → Nat) (call : Nat) (n : Nat) : Except Panic Nat :=
  if n = 0 then .error .intnNonPositive else .ok (rnd call % n)

/-- An `nn.Sequential` of recurrent layers: the hidden size of its first layer and its
forward pass `(xs, hxs, cxs) ↦ (xs, hxs, cxs)`. -/
structure Sequential where
  HiddenSize : Nat
  Forward : Vec → Vec → Vec → Vec × Vec × Vec

/-- The `Model` struct of lines 30-36; every layer is given by its forward pass. -/
structure Model where
  Embedding : Vec → Vec
  Encoder : Sequential
  Decoder : Sequential
  Linear : Vec → Vec
  Activation : Vec → Vec

/-! ## `Model.Forward` (lines 60-67) -/

/-- The method `Forward` of `Model`, statement by statement. -/
def Model.Forward (m : Model) (xs hxs cxs : Vec) : Vec × Vec × Vec :=
  let xs := m.Embedding xs
  let (xs, hxs, cxs) := m.Encoder.Forward xs hxs cxs
  let (xs, hxs, cxs) := m.Decoder.Forward xs hxs cxs
  let xs := m.Linear xs
  let xs := m.Activation xs
  (xs, hxs, cxs)

/-! ## `Model.Sample` (lines 69-86) -/

/-- The inner loop of lines 75-80, `for j := range probs`, entered at index `j` with the
entries `probs[j:]` still to visit: stop when `j == nextIndex`, otherwise add
`int(probs[j])` to `nextIndex`. The result is the final `nextIndex`. -/
def pickLoop : Nat → List ℚ → Int → Int
  | _, [], nextIndex => nextIndex
  | j, p :: rest, nextIndex =>
    if (j : Int) = nextIndex then nextIndex
    else pickLoop (j + 1) rest (nextIndex + goInt p)

/-- Lines 74-80: the index chosen for the distribution `probs` from the draw `r`. -/
def pick (probs : List ℚ) (r : Nat) : Int := pickLoop 0 probs r

/-- The Go expression `probs[k]` for an `int` index `k`. -/
def index (probs : List ℚ) (k : Int) : Except Panic ℚ :=
  if 0 ≤ k then
    match probs.get? k.toNat with
    | some p => .ok p
    | none => .error .indexOutOfRange
  else .error .indexOutOfRange

/-- The loop of lines 71-84 with `n` iterations left, at loop counter `i`. -/
def Model.sampleLoop (m : Model) (rnd : Nat → Nat) :
    Nat → Nat → Vec → Vec → Vec → List Int → Except Panic (List Int)
  | 0, _, _, _, _, sequence => .ok sequence
  | n + 1, i, xs, hxs, cxs, sequence => do
    let (ys, hxs, cxs) := m.Forward xs hxs cxs
    let probs := ys
    let r ← Intn rnd i probs.length
    let nextIndex := pick probs r
    let sequence := sequence ++ [nextIndex]
    let v ← index probs nextIndex
    let xs ← SetVec (NewVector probs.length) (i + 1) v
    m.sampleLoop rnd n (i + 1) xs hxs cxs sequence

/-- The method `Sample` of `Model`. -/
def Model.Sample (m : Model) (rnd : Nat → Nat) (xs hxs cxs : Vec) (maxLength : Nat) :
    Except Panic (List Int) :=
  m.sampleLoop rnd maxLength 0 xs hxs cxs []

/-! ## `Train` (lines 90-120) -/

/-- The calls of `Train` into the external packages `nn`, `losses`, `optimizers` and
`regimes`, none of which is in the repository. Nothing is assumed about them: `ρ` is the
state of the criterion, the optimizer (with the gradients and its learning rate) and the
regime, and every call is an arbitrary function that may panic. -/
structure Library (ρ : Type) where
  /-- Lines 91-93: the criterion, `optimizers.NewAdam(model.Parameters(), lr)` and
  `regimes.NewExponentialLR(optimizer, gamma, k)`, from `model`, `lr`, `gamma` and `k`. -/
  NewExponentialLR : Model → ℚ → ℚ → Nat → ρ
  /-- Line 103: `optimizer.ZeroGrad()`. -/
  ZeroGrad : ρ → ρ
  /-- Lines 113-114: `criterion.Forward(yss, targets)` and `loss.Backward()`. -/
  Backward : Model → ρ → List Vec → List (List Int) → Except Panic ρ
  /-- Line 115: `regime.Step()`; the regime holds the optimizer, which holds the
  parameters of the model. -/
  Step : Model → ρ → Except Panic (Model × ρ)

/-- One call of `model.Forward` made by `Train`: its arguments and its results. -/
structure ForwardCall where
  xs : Vec
  hxs : Vec
  cxs : Vec
  ys : Vec
  hOut : Vec
  cOut : Vec

/-- The loop of lines 105-112 over the time steps `xss[1:]`, as the list of the calls of
`model.Forward` it makes. Line 107 is `ys, hxs, cxs := model.Forward(xs, hxs, cxs)`: the
`:=` declares new variables `hxs`, `cxs` in the block of the loop body, so the results
are bound to variables that die with the iteration, and the arguments of every call are
the variables `hxs`, `cxs` of lines 100-101. -/
def forwardSteps (model : Model) (hxs cxs : Vec) : List (List Int) → List ForwardCall
  | [] => []
  | row :: rest =>
    let xs : Vec := row.map (fun t => (t : ℚ))
    let (ys, hxsInner, cxsInner) := model.Forward xs hxs cxs
    { xs := xs, hxs := hxs, cxs := cxs, ys := ys, hOut := hxsInner, cOut := cxsInner }
      :: forwardSteps model hxs cxs rest

/-- The trace of one processed example: the epoch `e` printed on line 117, the number of
calls of `regime.Step()` made before the example, and the calls of `model.Forward`. -/
structure ExampleRecord where
  epoch : Nat
  stepsBefore : Nat
  calls : List ForwardCall

/-- The state `Train` carries from one example to the next: the model, the state of the
library, the number of calls of `regime.Step()` made so far and the trace. -/
structure TrainState (ρ : Type) where
  model : Model
  regime : ρ
  steps : Nat
  log : List ExampleRecord

/-- The body of the loop over the examples, lines 97-117, in epoch `e`. -/
def trainExample {ρ : Type} (lib : Library ρ) (labels : List (List Int)) (e : Nat)
    (st : TrainState ρ) (xss : List (List Int)) : Except Panic (TrainState ρ) :=
  match xss with
  | [] => .error .indexOutOfRange
  | _ :: steps =>
    let hxs := NewVector st.model.Encoder.HiddenSize
    let cxs := NewVector st.model.Encoder.HiddenSize
    let regime := lib.ZeroGrad st.regime
    let calls := forwardSteps st.model hxs cxs steps
    let yss := calls.map (fun call => call.ys)
    match labels with
    | [] => .error .sliceBoundsOutOfRange
    | _ :: targets =>
      match lib.Backward st.model regime yss targets with
      | .error p => .error p
      | .ok regime =>
        match lib.Step st.model regime with
        | .error p => .error p
        | .ok (model, regime) =>
          .ok { model := model, regime := regime, steps := st.steps + 1,
                log := st.log ++ [{ epoch := e, stepsBefore := st.steps, calls := calls }] }

/-- The loop of line 96 over `trainData`, in epoch `e`. -/
def trainEpoch {ρ : Type} (lib : Library ρ) (labels : List (List Int)) (e : Nat) :
    TrainState ρ → List (List (List Int)) → Except Panic (TrainState ρ)
  | st, [] => .ok st
  | st, xss :: rest =>
    match trainExample lib labels e st xss with
    | .error p => .error p
    | .ok st => trainEpoch lib labels e st rest

/-- The loop of line 95, `for e := 1; e <= epochs; e++`, with `n` epochs left. -/
def trainEpochs {ρ : Type} (lib : Library ρ) (trainData : List (List (List Int)))
    (labels : List (List Int)) : Nat → Nat → TrainState ρ → Except Panic (TrainState ρ)
  | 0, _, st => .ok st
  | n + 1, e, st =>
    match trainEpoch lib labels e st trainData with
    | .error p => .error p
    | .ok st => trainEpochs lib trainData labels n (e + 1) st

/-- The function `Train`: Adam at learning rate 0.001 under `NewExponentialLR(_, 0.95, 1)`. -/
def Train {ρ : Type} (lib : Library ρ) (model : Model)
    (trainData : List (List (List Int))) (labels : List (List Int)) (epochs : Nat) :
    Except Panic (TrainState ρ) :=
  trainEpochs lib trainData labels epochs 1
    { model := model, regime := lib.NewExponentialLR model (1 / 1000) (19 / 20) 1,
      steps := 0, log := [] }

/-! ## Go maps and strings -/

/-- A Go `map`: its entries, with pairwise distinct keys, in the order `range` visits them. -/
structure GoMap (κ ν : Type) where
  entries : List (κ × ν)

/-- The keys of a Go map are pairwise distinct. -/
def GoMap.WF {κ ν : Type} (m : GoMap κ ν) : Prop := (m.entries.map Prod.fst).Nodup

/-- The lookup on a list of entries. -/
def lookupEntries {κ ν : Type} [DecidableEq κ] : List (κ × ν) → κ → Option ν
  | [], _ => none
  | (k, v) :: rest, key => if k = key then some v else lookupEntries rest key

/-- The Go form `val, ok := m[key]`: `some val` when `ok`. -/
def GoMap.lookup {κ ν : Type} [DecidableEq κ] (m : GoMap κ ν) (key : κ) : Option ν :=
  lookupEntries m.entries key

/-- The Go expression `m[key]` on a map of ints: `0` when the key is absent. -/
def GoMap.idx {κ : Type} [DecidableEq κ] (m : GoMap κ Int) (key : κ) : Int :=
  (m.lookup key).getD 0

/-- The store on a list of entries: overwrite the entry of `key`, or add one. -/
def storeEntries {κ ν : Type} [DecidableEq κ] : List (κ × ν) → κ → ν → List (κ × ν)
  | [], key, val => [(key, val)]
  | (k, v) :: rest, key, val =>
    if k = key then (key, val) :: rest else (k, v) :: storeEntries rest key val

/-- The Go statement `m[key] = val`. -/
def GoMap.store {κ ν : Type} [DecidableEq κ] (m : GoMap κ ν) (key : κ) (val : ν) :
    GoMap κ ν :=
  { entries := storeEntries m.entries key val }

/-- The Go expression `len(m)`. -/
def GoMap.len {κ ν : Type} (m : GoMap κ ν) : Nat := m.entries.length

/-- The pieces of a list of characters between the occurrences of `sep`; always at
least one piece. -/
def splitChars (sep : Char) : List Char → List (List Char)
  | [] => [[]]
  | c :: cs =>
    if c = sep then [] :: splitChars sep cs
    else
      match splitChars sep cs with
      | [] => [[c]]
      | piece :: pieces => (c :: piece) :: pieces

/-- The call `strings.Split(s, sep)` for a separator of one character. -/
def Split (s : String) (sep : Char) : List String :=
  (splitChars sep s.data).map String.mk

/-! ## `LoadVocab` (lines 122-141) -/

/-- The function `LoadVocab`; `decoded` is the map decoded from the vocabulary file,
`none` when the file cannot be opened or decoded. -/
def LoadVocab (decoded : Option (GoMap String Int)) :
    Except Panic (GoMap String Int × GoMap Int String) :=
  match decoded with
  | none => .error .fatal
  | some vocab =>
    let reverseVocab : GoMap Int String :=
      vocab.entries.foldl (fun rv kv => rv.store kv.2 kv.1) { entries := [] }
    .ok (vocab, reverseVocab)

/-! ## `LoadData` (lines 143-186) -/

/-- The loops of lines 163-165, 170-172 and 177-179: append `vocab[word]` for every
piece `word` of `s`. -/
def tokenize (vocab : GoMap String Int) (sep : Char) (s : String) : List Int :=
  (Split s sep).foldl (fun ids word => ids ++ [vocab.idx word]) []

/-- Lines 162-179 for one file of name `name` and lines `lines`: `input`, `output` and
`label`. -/
def loadLines (vocab : GoMap String Int) (name : String) (lines : List String) :
    Except Panic (List Int × List (List Int) × List Int) :=
  match lines with
  | [] => .error .indexOutOfRange
  | first :: rest =>
    let input := tokenize vocab ' ' first
    let output := rest.foldl (fun output line => output ++ [tokenize vocab ' ' line]) []
    let label := tokenize vocab '.' name
    .ok (input, output, label)

/-- An entry of the directory `data`. -/
structure DirEntry where
  Name : String
  IsDir : Bool

/-- The loop of lines 152-183 over the directory entries. An example is the pair
`{input, output}` of line 181. -/
def loadFiles (vocab : GoMap String Int) (ReadLines : String → Option (List String)) :
    List DirEntry → List (List Int × List (List Int)) → List (List Int) →
    Except Panic (List (List Int × List (List Int)) × List (List Int))
  | [], trainData, labels => .ok (trainData, labels)
  | file :: rest, trainData, labels =>
    if file.IsDir then loadFiles vocab ReadLines rest trainData labels
    else
      match ReadLines ("data/" ++ file.Name) with
      | none => .error .fatal
      | some lines => do
        let (input, output, label) ← loadLines vocab file.Name lines
        loadFiles vocab ReadLines rest (trainData ++ [(input, output)]) (labels ++ [label])

/-- The function `LoadData`; `dir` is the listing of the directory `data`, `none` when
it cannot be read, and `ReadLines` gives the lines of a file, `none` on an error. -/
def LoadData (vocab : GoMap String Int) (dir : Option (List DirEntry))
    (ReadLines : String → Option (List String)) :
    Except Panic (List (List Int × List (List Int)) × List (List Int)) :=
  match dir with
  | none => .error .fatal
  | some files => loadFiles vocab ReadLines files [] []

/-! ## The message handler of `main` (lines 211-216) -/

/-- Lines 211-216: the ids of the words of the message that are vocabulary tokens.
`ToLower` is the function `strings.ToLower`. -/
def handlerInput (ToLower : String → String) (vocab : GoMap String Int)
    (content : String) : List Int :=
  (Split (ToLower content) ' ').foldl
    (fun input word =>
      match vocab.lookup word with
      | some val => input ++ [val]
      | none => input)
    []

/-! ## The sampling rule of the specification -/

/-- The categorical sample in the words of the specification: accumulate the
probabilities until the running sum exceeds the draw `u`, return that index. Entered at
index `k` with running sum `acc`. -/
def inverseCDFLoop : Nat → ℚ → List ℚ → ℚ → Option Nat
  | _, _, [], _ => none
  | k, acc, p :: rest, u =>
    if u < acc + p then some k else inverseCDFLoop (k + 1) (acc + p) rest u

/-- The inverse-CDF sample of `probs` at the draw `u`: the smallest index `k` such that
`probs[0] + ... + probs[k]` exceeds `u`. -/
def inverseCDF (probs : List ℚ) (u : ℚ) : Option Nat := inverseCDFLoop 0 0 probs u

/-! ## Concrete models and inputs -/

/-- A recurrent stack of hidden size 1 that returns its input and its state unchanged. -/
def idStack : Sequential := { HiddenSize := 1, Forward := fun xs hxs cxs => (xs, hxs, cxs) }

/-- A recurrent stack of hidden size 1 that adds 1 to every entry of the hidden state and
2 to every entry of the cell state. -/
def countingStack : Sequential :=
  { HiddenSize := 1
    Forward := fun xs hxs cxs => (xs, hxs.map (fun v => v + 1), cxs.map (fun v => v + 2)) }

/-- A model whose output head returns the distribution `probs` on every input. -/
def constModel (probs : Vec) : Model :=
  { Embedding := fun xs => xs
    Encoder := idStack
    Decoder := idStack
    Linear := fun xs => xs
    Activation := fun _ => probs }

/-- A model whose encoder changes the recurrent state at every call. -/
def countingModel : Model :=
  { Embedding := fun xs => xs
    Encoder := countingStack
    Decoder := idStack
    Linear := fun xs => xs
    Activation := fun _ => [1 / 2, 1 / 2] }

/-- A library whose state is a counter: no call panics, the model is left unchanged and
`regime.Step()` adds 1 to the counter. -/
def countingLibrary : Library Nat :=
  { NewExponentialLR := fun _ _ _ _ => 0
    ZeroGrad := fun r => r
    Backward := fun _ r _ _ => .ok r
    Step := fun model r => .ok (model, r + 1) }

/-- The vocabulary of the scenario of the specification. -/
def demoVocab : GoMap String Int := { entries := [("hi", 0), ("there", 1), ("bye", 2)] }

/-! ## Theorems: `Model.Forward` -/

/-- C5: `Model.Forward` runs Embedding, Encoder, Decoder and the output head (Linear, then
the Softmax activation) in this order; the decoder starts from the state the encoder
returns, and the state returned to the caller is the state the decoder returns. -/
theorem Forward_stage_order (m : Model) (xs hxs cxs : Vec) :
    let e := m.Encoder.Forward (m.Embedding xs) hxs cxs
    let d := m.Decoder.Forward e.1 e.2.1 e.2.2
    m.Forward xs hxs cxs = (m.Activation (m.Linear d.1), d.2.1, d.2.2) := by
  rfl

/-! ## Theorems: `Model.Sample` -/

/-- The conversion `int(p)` is 0 on `[0, 1)`. -/
theorem goInt_eq_zero {p : ℚ} (h0 : 0 ≤ p) (h1 : p < 1) : goInt p = 0 :=
  Int.tdiv_eq_zero_of_lt (Rat.num_nonneg.mpr h0) (Rat.lt_one_iff_num_lt_denom.mp h1)

/-- When every increment `int(probs[j])` is 0 the inner loop returns the draw. -/
theorem pickLoop_of_goInt_zero (rest : List ℚ) (h : ∀ p ∈ rest, goInt p = 0) (j : Nat)
    (nextIndex : Int) : pickLoop j rest nextIndex = nextIndex := by
  induction rest generalizing j with
  | nil => rfl
  | cons p rest ih =>
    have hp : goInt p = 0 := h p (List.mem_cons_self p rest)
    have hrest : ∀ q ∈ rest, goInt q = 0 := fun q hq => h q (List.mem_cons_of_mem p hq)
    unfold pickLoop
    split
    · rfl
    · rw [hp, add_zero]
      exact ih hrest (j + 1)

/-- The Go index expression inside the bounds. -/
theorem index_of_lt (probs : List ℚ) (r : Nat) (h : r < probs.length) :
    index probs (r : Int) = .ok (probs.get ⟨r, h⟩) := by
  unfold index
  rw [if_pos (Int.ofNat_nonneg r), Int.toNat_ofNat, List.get?_eq_get h]

/-- The loop of `Sample` on a model whose distributions have `vocabSize` entries, all in
`[0, 1)`, while the loop counter stays below `vocabSize`. -/
theorem sampleLoop_uniform (m : Model) (rnd : Nat → Nat) (vocabSize : Nat)
    (hlen : ∀ xs hxs cxs, (m.Forward xs hxs cxs).1.length = vocabSize)
    (hlt : ∀ xs hxs cxs, ∀ p ∈ (m.Forward xs hxs cxs).1, 0 ≤ p ∧ p < 1)
    (n i : Nat) (hin : i + n < vocabSize) (xs hxs cxs : Vec) (sequence : List Int) :
    m.sampleLoop rnd n i xs hxs cxs sequence =
      .ok (sequence ++ (List.range' i n).map (fun k => ((rnd k % vocabSize : Nat) : Int))) := by
  induction n generalizing i xs hxs cxs sequence with
  | zero => simp [Model.sampleLoop]
  | succ n ih =>
    have hl := hlen xs hxs cxs
    have hp := hlt xs hxs cxs
    have hV : vocabSize ≠ 0 := by omega
    have hr : rnd i % vocabSize < (m.Forward xs hxs cxs).1.length := by
      rw [hl]; exact Nat.mod_lt _ (Nat.pos_of_ne_zero hV)
    have hpick : pick (m.Forward xs hxs cxs).1 (rnd i % vocabSize) =
        ((rnd i % vocabSize : Nat) : Int) :=
      pickLoop_of_goInt_zero _ (fun p hpm => goInt_eq_zero (hp p hpm).1 (hp p hpm).2) 0 _
    have hset : ∀ v, SetVec (NewVector vocabSize) (i + 1) v =
        .ok ((NewVector vocabSize).set (i + 1) v) := by
      intro v
      unfold SetVec
      rw [if_pos]
      simp only [NewVector, List.length_replicate]
      omega
    rw [Model.sampleLoop]
    simp only [hl, Intn, if_neg hV, bind, Except.bind, hpick, index_of_lt _ _ hr, hset]
    rw [ih (i + 1) (by omega)]
    simp [List.range'_succ]

/-- C9: on a model whose distributions have `vocabSize` entries, all non-negative and
strictly below 1 (each truncates to the integer 0), and for `maxLength` strictly smaller
than `vocabSize`, `Sample` returns exactly the list of the uniform integer draws
`rand.Intn(vocabSize)` of the successive steps, whatever the probability values are. -/
theorem Sample_eq_uniform_draws (m : Model) (rnd : Nat → Nat) (vocabSize maxLength : Nat)
    (xs hxs cxs : Vec)
    (hlen : ∀ xs hxs cxs, (m.Forward xs hxs cxs).1.length = vocabSize)
    (hlt : ∀ xs hxs cxs, ∀ p ∈ (m.Forward xs hxs cxs).1, 0 ≤ p ∧ p < 1)
    (hN : maxLength < vocabSize) :
    m.Sample rnd xs hxs cxs maxLength =
        .ok ((List.range maxLength).map (fun i => ((rnd i % vocabSize : Nat) : Int))) ∧
      ∀ i, i < maxLength → Intn rnd i vocabSize = .ok (rnd i % vocabSize) := by
  constructor
  · unfold Model.Sample
    rw [sampleLoop_uniform m rnd vocabSize hlen hlt maxLength 0 (by omega),
      List.range_eq_range']
    rfl
  · intro i _
    unfold Intn
    rw [if_neg (by omega)]

/-- C9, at a concrete input: the model that always returns `[1/2, 1/2]`, the draw 1 and
`maxLength = 1 < 2`. -/
theorem Sample_eq_uniform_draws_witness :
    (constModel [1 / 2, 1 / 2]).Sample (fun _ => 1) [] [0] [0] 1 =
        .ok ((List.range 1).map (fun i => (((fun _ => 1) i % 2 : Nat) : Int))) ∧
      ∀ i, i < 1 → Intn (fun _ => 1) i 2 = .ok ((fun _ => 1) i % 2) :=
  Sample_eq_uniform_draws (constModel [1 / 2, 1 / 2]) (fun _ => 1) 2 1 [] [0] [0]
    (fun _ _ _ => rfl)
    (fun _ _ _ p hp => by
      have h : p = 1 / 2 := by
        simpa [Model.Forward, constModel, idStack] using hp
      subst h
      constructor <;> norm_num)
    (by decide)

/-- C1: at the distribution `[1, 0]` and the draw 1 the loop of lines 75-80 leaves
`nextIndex = 2`, outside `[0, 2)`, and `Sample` with `maxLength = 1` panics on
`probs[2]` instead of returning one id; and on the distribution `[1/2, 1/2]`, whose
entries all truncate to 0, `Sample` with `maxLength = 2 = vocabSize` panics in
`SetVec(2, _)` on a vector of size 2. -/
theorem Sample_index_out_of_range :
    pick [1, 0] 1 = 2 ∧
      (constModel [1, 0]).Sample (fun _ => 1) [] [0] [0] 1 = .error .indexOutOfRange ∧
      (constModel [1 / 2, 1 / 2]).Sample (fun _ => 0) [] [0] [0] 2 =
        .error .setVecOutOfRange := by
  refine ⟨?_, ?_, ?_⟩ <;> with_unfolding_all rfl

/-- C2: at the distribution `[1/2, 0, 1/2]` and the draw 1, `Sample` appends the index 1,
whose probability is 0, while the inverse-CDF sample of this distribution is never the
index 1, whatever the draw `u` is. -/
theorem Sample_picks_zero_probability :
    (constModel [1 / 2, 0, 1 / 2]).Sample (fun _ => 1) [] [0] [0] 1 = .ok [1] ∧
      index [1 / 2, 0, 1 / 2] 1 = .ok 0 ∧
      ∀ u : ℚ, inverseCDF [1 / 2, 0, 1 / 2] u ≠ some 1 := by
  refine ⟨?_, ?_, ?_⟩
  · with_unfolding_all rfl
  · with_unfolding_all rfl
  · intro u
    simp only [inverseCDF, inverseCDFLoop, zero_add, add_zero]
    split_ifs <;> simp

/-! ## Theorems: `Train` -/

/-- Every call of `model.Forward` made for one example receives the state of lines
100-101. -/
theorem forwardSteps_state (model : Model) (hxs cxs : Vec) (steps : List (List Int)) :
    ∀ call ∈ forwardSteps model hxs cxs steps, call.hxs = hxs ∧ call.cxs = cxs := by
  induction steps with
  | nil => intro call h; simp [forwardSteps] at h
  | cons row rest ih =>
    intro call h
    simp only [forwardSteps, List.mem_cons] at h
    rcases h with h | h
    · subst h; exact ⟨rfl, rfl⟩
    · exact ih call h

/-- C3: on a model whose encoder changes the state, for an example of two time steps, the
second call of `model.Forward` receives the zero state `([0], [0])` although the first
call returned `([1], [2])`. -/
theorem Train_state_not_threaded :
    (Train countingLibrary countingModel [[[0], [1], [2]]] [[1]] 1).map
        (fun st => st.log.map (fun r =>
          r.calls.map (fun call => (call.hxs, call.cxs, call.hOut, call.cOut)))) =
      .ok [[([0], [0], [1], [2]), ([0], [0], [1], [2])]] := by
  with_unfolding_all rfl

/-- A store under a key that is absent adds the entry at the end. -/
theorem storeEntries_fresh {κ ν : Type} [DecidableEq κ] (l : List (κ × ν)) (key : κ)
    (val : ν) (h : key ∉ l.map Prod.fst) : storeEntries l key val = l ++ [(key, val)] := by
  induction l with
  | nil => rfl
  | cons kv rest ih =>
    obtain ⟨k, v⟩ := kv
    simp only [List.map_cons, List.mem_cons, not_or] at h
    simp only [storeEntries, if_neg (Ne.symm h.1), ih h.2, List.cons_append]

/-- With distinct keys, a lookup succeeds exactly on the entries of the list. -/
theorem lookupEntries_eq_some_iff {κ ν : Type} [DecidableEq κ] (l : List (κ × ν))
    (hnd : (l.map Prod.fst).Nodup) (key : κ) (val : ν) :
    lookupEntries l key = some val ↔ (key, val) ∈ l := by
  induction l with
  | nil => simp [lookupEntries]
  | cons kv rest ih =>
    obtain ⟨k, v⟩ := kv
    simp only [List.map_cons, List.nodup_cons] at hnd
    by_cases hk : k = key
    · subst hk
      simp only [lookupEntries, if_true, Option.some.injEq, List.mem_cons, Prod.mk.injEq,
        true_and]
      constructor
      · intro h; exact Or.inl h.symm
      · rintro (h | h)
        · exact h.symm
        · exact absurd (List.mem_map_of_mem Prod.fst h) hnd.1
    · simp only [lookupEntries, if_neg hk, ih hnd.2, List.mem_cons, Prod.mk.injEq]
      constructor
      · intro h; exact Or.inr h
      · rintro (h | h)
        · exact absurd h.1.symm hk
        · exact h

/-- The loop of lines 136-138 over entries whose ids are new keys appends the swapped
entries in order. -/
theorem foldl_store_swap (l : List (String × Int)) (acc : List (Int × String))
    (hnd : (acc.map Prod.fst ++ l.map Prod.snd).Nodup) :
    l.foldl (fun (rv : GoMap Int String) kv => rv.store kv.2 kv.1) { entries := acc } =
      { entries := acc ++ l.map Prod.swap } := by
  induction l generalizing acc with
  | nil => simp
  | cons kv rest ih =>
    obtain ⟨k, v⟩ := kv
    have hv : v ∉ acc.map Prod.fst := by
      intro hmem
      exact (List.nodup_append.mp hnd).2.2 hmem (List.mem_cons_self _ _)
    have hnd2 : ((acc ++ [(v, k)]).map Prod.fst ++ rest.map Prod.snd).Nodup := by
      simpa [List.append_assoc] using hnd
    have hstep : ({ entries := acc } : GoMap Int String).store v k =
        { entries := acc ++ [(v, k)] } := by
      simp only [GoMap.store, storeEntries_fresh acc v k hv]
    rw [List.foldl_cons, hstep, ih (acc ++ [(v, k)]) hnd2]
    simp [Prod.swap]

/-- C6: for a vocabulary whose ids are pairwise distinct, `LoadVocab` returns the
vocabulary and a reverse map that is its exact inverse: `reverseVocab[vocab[t]] = t` for
every token `t`, `vocab[reverseVocab[i]] = i` for every key `i` of the reverse map, and
both maps have the same number of entries. -/
theorem LoadVocab_reverse_inverse (vocab : GoMap String Int) (hkeys : vocab.WF)
    (hids : (vocab.entries.map Prod.snd).Nodup) :
    ∃ reverseVocab, LoadVocab (some vocab) = .ok (vocab, reverseVocab) ∧
      (∀ t i, vocab.lookup t = some i → reverseVocab.lookup i = some t) ∧
      (∀ i t, reverseVocab.lookup i = some t → vocab.lookup t = some i) ∧
      reverseVocab.len = vocab.len := by
  have hrev : vocab.entries.foldl (fun (rv : GoMap Int String) kv => rv.store kv.2 kv.1)
      { entries := [] } = { entries := vocab.entries.map Prod.swap } := by
    simpa using foldl_store_swap vocab.entries [] (by simpa using hids)
  have hndrev : ((vocab.entries.map Prod.swap).map Prod.fst).Nodup := by
    simpa [List.map_map, Function.comp_def] using hids
  have hswap : ∀ t i, (i, t) ∈ vocab.entries.map Prod.swap ↔ (t, i) ∈ vocab.entries := by
    intro t i
    simp [Prod.swap, List.mem_map]
  refine ⟨{ entries := vocab.entries.map Prod.swap }, ?_, ?_, ?_, ?_⟩
  · simp only [LoadVocab, hrev]
  · intro t i h
    exact (lookupEntries_eq_some_iff _ hndrev i t).mpr
      ((hswap t i).mpr ((lookupEntries_eq_some_iff _ hkeys t i).mp h))
  · intro i t h
    exact (lookupEntries_eq_some_iff _ hkeys t i).mpr
      ((hswap t i).mp ((lookupEntries_eq_some_iff _ hndrev i t).mp h))
  · simp [GoMap.len]

/-- C6, at the vocabulary `hi`, `there`, `bye` of the specification. -/
theorem LoadVocab_reverse_inverse_witness :
    ∃ reverseVocab, LoadVocab (some demoVocab) = .ok (demoVocab, reverseVocab) ∧
      (∀ t i, demoVocab.lookup t = some i → reverseVocab.lookup i = some t) ∧
      (∀ i t, reverseVocab.lookup i = some t → demoVocab.lookup t = some i) ∧
      reverseVocab.len = demoVocab.len :=
  LoadVocab_reverse_inverse demoVocab (by unfold GoMap.WF; decide) (by decide)

/-! ## Theorems: tokenization in `LoadData` and in the message handler -/

/-- A loop that appends one value per element computes a map. -/
theorem foldl_append_eq_map {α β : Type} (f : α → β) (l : List α) (init : List β) :
    l.foldl (fun acc x => acc ++ [f x]) init = init ++ l.map f := by
  induction l generalizing init with
  | nil => simp
  | cons x rest ih => simp [ih]

/-- A loop that appends a value for the elements that have one computes a filter-map. -/
theorem foldl_append_eq_filterMap {α β : Type} (f : α → Option β)
    (step : List β → α → List β) (hstep : ∀ acc x, step acc x = acc ++ (f x).toList)
    (l : List α) (init : List β) : l.foldl step init = init ++ l.filterMap f := by
  induction l generalizing init with
  | nil => simp
  | cons x rest ih =>
    rw [List.foldl_cons, ih, hstep]
    cases h : f x <;> simp [List.filterMap_cons, h]

/-- The tokenization loop maps every piece to its id, 0 when it has none. -/
theorem tokenize_eq_map (vocab : GoMap String Int) (sep : Char) (s : String) :
    tokenize vocab sep s = (Split s sep).map (fun word => vocab.idx word) := by
  unfold tokenize
  rw [foldl_append_eq_map]
  rfl

/-- C7: for a file of name `name` whose lines are `first :: rest`, the tokenization of
`LoadData` succeeds and yields, for the first line, each later line and the file name, one
id per separator-delimited piece in order: the vocabulary id of a piece that is a token,
0 for a piece that is not; every id sequence has the length of the list of pieces. -/
theorem LoadData_tokenization (vocab : GoMap String Int) (name first : String)
    (rest : List String) :
    let ident : String → Int := fun word =>
      match vocab.lookup word with
      | some i => i
      | none => 0
    loadLines vocab name (first :: rest) =
        .ok ((Split first ' ').map ident,
             rest.map (fun line => (Split line ' ').map ident),
             (Split name '.').map ident) ∧
      LoadData vocab (some [{ Name := name, IsDir := false }]) (fun _ => some (first :: rest)) =
        .ok ([((Split first ' ').map ident, rest.map (fun line => (Split line ' ').map ident))],
             [(Split name '.').map ident]) ∧
      ∀ (sep : Char) (s : String),
        tokenize vocab sep s = (Split s sep).map ident ∧
          (tokenize vocab sep s).length = (Split s sep).length := by
  intro ident
  have hid : (fun word => vocab.idx word) = ident := by
    funext word
    simp only [GoMap.idx, ident]
    cases vocab.lookup word <;> rfl
  have htok : ∀ (sep : Char) (s : String), tokenize vocab sep s = (Split s sep).map ident := by
    intro sep s
    rw [tokenize_eq_map, hid]
  have hlines : loadLines vocab name (first :: rest) =
      .ok ((Split first ' ').map ident,
           rest.map (fun line => (Split line ' ').map ident),
           (Split name '.').map ident) := by
    simp only [loadLines, htok, foldl_append_eq_map, List.nil_append]
  refine ⟨hlines, ?_, ?_⟩
  · simp only [LoadData, loadFiles, hlines, bind, Except.bind, List.nil_append]
    rfl
  · intro sep s
    rw [htok, List.length_map]
    exact ⟨rfl, rfl⟩

/-- C10: the id sequence the message handler builds is the list of the vocabulary ids of
the lower-cased, space-separated words that are vocabulary tokens, in order; the other
words contribute nothing, so the sequence is never longer than the list of words, whereas
the tokenization of `LoadData` yields one id per word. -/
theorem handlerInput_drops_unknown (ToLower : String → String) (vocab : GoMap String Int)
    (content : String) :
    handlerInput ToLower vocab content =
        (Split (ToLower content) ' ').filterMap (fun word => vocab.lookup word) ∧
      (handlerInput ToLower vocab content).length ≤ (Split (ToLower content) ' ').length ∧
      (tokenize vocab ' ' (ToLower content)).length = (Split (ToLower content) ' ').length := by
  have h : handlerInput ToLower vocab content =
      (Split (ToLower content) ' ').filterMap (fun word => vocab.lookup word) := by
    unfold handlerInput
    rw [foldl_append_eq_filterMap (fun word => vocab.lookup word)]
    · rfl
    · intro acc word
      cases vocab.lookup word <;> simp
  refine ⟨h, ?_, ?_⟩
  · rw [h]
    exact List.length_filterMap_le _ _
  · rw [tokenize_eq_map, List.length_map]

end Hakuv2
